import Mathlib

/-!
Verification of the SIGTAP loader (`src/load_sigtap.py`) against its
natural-language specification.

Strings are modelled as `List Char`, bytes as `Nat` (values < 256 in
practice), Python `None`-able integers as `Option Int`.  Python's
`str.lower` is modelled on its ASCII case (the repository only ever
compares against ASCII vocabulary and the sanitizer discards every
non-`[a-z0-9_]` character, so the ASCII case is the relevant one);
`\d` of the `re` module is likewise modelled as the ASCII digits.
-/

namespace Sigtap

/-- ASCII case of Python `str.lower`, applied characterwise. -/
def lowerChar (c : Char) : Char :=
  if 65 ≤ c.toNat ∧ c.toNat ≤ 90 then Char.ofNat (c.toNat + 32) else c

/-- Membership in the approved identifier alphabet `[a-z0-9_]`
(the character class of `sanitize_table_name`'s first regex). -/
def isApprovedChar (c : Char) : Bool :=
  decide (97 ≤ c.toNat ∧ c.toNat ≤ 122) || decide (48 ≤ c.toNat ∧ c.toNat ≤ 57) ||
    decide (c.toNat = 95)

/-- Remove the maximal run of characters satisfying `p` from the end of
the list; together with `List.dropWhile` this models Python `str.strip`. -/
def rstripWhen (p : Char → Bool) : List Char → List Char
  | [] => []
  | c :: r => if (rstripWhen p r).isEmpty && p c then [] else c :: rstripWhen p r

/-- Python `str.strip` restricted to characters satisfying `p`:
drop the leading run and the trailing run of such characters. -/
def stripWhen (p : Char → Bool) (l : List Char) : List Char :=
  rstripWhen p (l.dropWhile p)

/-- Python `str.strip()` (whitespace on both ends). -/
def pyStripWs (l : List Char) : List Char :=
  stripWhen (fun c => c.isWhitespace) l

/-- `re.sub(p+, "_", s)` for a character class `p`: every maximal run of
characters satisfying `p` is replaced by a single underscore.  A character
inside a run whose successor is still in the run is dropped; the last
character of each run becomes the replacement underscore. -/
def subRuns (p : Char → Bool) : List Char → List Char
  | [] => []
  | [c] => if p c then ['_'] else [c]
  | a :: b :: r =>
    if p a && p b then subRuns p (b :: r)
    else (if p a then '_' else a) :: subRuns p (b :: r)

/-- The value of `sanitize_table_name` before the final `[:64]` truncation:
lower-case, collapse non-`[a-z0-9_]` runs to `_`, collapse `_` runs, strip
`_` from both ends. -/
def sanitizeCore (l : List Char) : List Char :=
  stripWhen (fun c => c == '_')
    (subRuns (fun c => c == '_')
      (subRuns (fun c => !(isApprovedChar c)) (l.map lowerChar)))

/-- `sanitize_table_name` of `src/load_sigtap.py` (lines 115-120). -/
def sanitize_table_name (l : List Char) : List Char :=
  (sanitizeCore l).take 64

/-- No two adjacent characters of the list both satisfy `p`. -/
def noAdj (p : Char → Bool) : List Char → Bool
  | [] => true
  | [_] => true
  | a :: b :: r => !(p a && p b) && noAdj p (b :: r)

/-- `ColumnSpec` of `src/load_sigtap.py` (lines 208-216). -/
structure ColumnSpec where
  name : List Char
  mysql_type : String
  nullable : Bool
deriving DecidableEq

/-- `ColumnSpec.__init__`: the stored `name` is the sanitized input name. -/
def ColumnSpec.make (name : List Char) (mysql_type : String) (nullable : Bool) : ColumnSpec :=
  ⟨sanitize_table_name name, mysql_type, nullable⟩

/-- Does `20\d{2}[01]\d` match at the head of the list?  (First, preferred
pattern of `detect_competencia_from_path`.) -/
def pat1At : List Char → Bool
  | a :: b :: c :: d :: e :: f :: _ =>
    a == '2' && b == '0' && c.isDigit && d.isDigit && (e == '0' || e == '1') && f.isDigit
  | _ => false

/-- Does `\d{6}` match at the head of the list?  (Second pattern of
`detect_competencia_from_path`.) -/
def pat2At : List Char → Bool
  | a :: b :: c :: d :: e :: f :: _ =>
    a.isDigit && b.isDigit && c.isDigit && d.isDigit && e.isDigit && f.isDigit
  | _ => false

/-- `re.search` for a fixed-width 6-character pattern: return the 6
characters at the leftmost position where `patAt` matches. -/
def reSearch6 (patAt : List Char → Bool) : List Char → Option (List Char)
  | [] => none
  | c :: r => if patAt (c :: r) then some ((c :: r).take 6) else reSearch6 patAt r

/-- `int(comp[-2:])` for a digit string: the numeric value of the last two
characters. -/
def twoDigitVal (t : List Char) : Nat :=
  match t.drop (t.length - 2) with
  | [a, b] => (a.toNat - 48) * 10 + (b.toNat - 48)
  | _ => 0

/-- The `\d{6}` iteration of the pattern loop in
`detect_competencia_from_path` of `src/load_sigtap.py` (lines 70-84):
leftmost match, returned only when its month part validates. -/
def detectPat2 (s : List Char) : Option (List Char) :=
  match reSearch6 pat2At s with
  | some comp2 =>
    if 1 ≤ twoDigitVal comp2 ∧ twoDigitVal comp2 ≤ 12 then some comp2 else none
  | none => none

/-- `detect_competencia_from_path` of `src/load_sigtap.py` (lines 70-84):
the preferred `20\d{2}[01]\d` pattern first, then the generic `\d{6}` one
(`detectPat2`); each iteration takes the leftmost match and validates the
month before returning, falling through otherwise. -/
def detect_competencia_from_path (s : List Char) : Option (List Char) :=
  match reSearch6 pat1At s with
  | some comp =>
    if 1 ≤ twoDigitVal comp ∧ twoDigitVal comp ≤ 12 then some comp
    else detectPat2 s
  | none => detectPat2 s

/-- `strip_competencia_suffix` of `src/load_sigtap.py` (lines 123-128):
remove a trailing `_AAAAMM` whose month part is in `[1,12]`. -/
def strip_competencia_suffix (stem : List Char) : List Char :=
  match stem.reverse with
  | m2 :: m1 :: y4 :: y3 :: y2 :: y1 :: '_' :: rest =>
    if m2.isDigit && m1.isDigit && y4.isDigit && y3.isDigit && y2.isDigit && y1.isDigit then
      if 1 ≤ (m1.toNat - 48) * 10 + (m2.toNat - 48) ∧
          (m1.toNat - 48) * 10 + (m2.toNat - 48) ≤ 12 then
        rest.reverse
      else stem
    else stem
  | _ => stem

/-- `str.count` for a single character. -/
def pyCount (c : Char) : List Char → Nat
  | [] => 0
  | d :: r => (if d == c then 1 else 0) + pyCount c r

/-- The candidate delimiters of `detect_delimiter`, in source order. -/
def candidateDelims : List Char := ['|', ';', ',', '\t']

/-- Python `max(..., key=...)` over an association list of counts, keeping
the current best: a later candidate replaces the best only when its count
is strictly greater, so ties keep the earliest candidate. -/
def bestDelim : List (Char × Nat) → Char × Nat → Char × Nat
  | [], best => best
  | x :: r, best => bestDelim r (if best.2 < x.2 then x else best)

/-- `detect_delimiter` of `src/load_sigtap.py` (lines 103-112): count each
candidate in the sample, pick the first maximum, but return `|` when every
count is zero. -/
def detect_delimiter (s : List Char) : Char :=
  let counts := candidateDelims.map (fun d => (d, pyCount d s))
  let delim := match counts with
    | [] => '|'
    | x :: r => (bestDelim r x).1
  if counts.all (fun kv => kv.2 == 0) then '|' else delim

/-- Does `pat` occur at the head of `s`? -/
def listStartsWith : List Char → List Char → Bool
  | [], _ => true
  | _ :: _, [] => false
  | p :: ps, c :: cs => p == c && listStartsWith ps cs

/-- Python's substring containment `pat in s`. -/
def pyIn (pat : List Char) : List Char → Bool
  | [] => pat.isEmpty
  | c :: tail => listStartsWith pat (c :: tail) || pyIn pat tail

/-- Python truthiness of an optional integer: `None` and `0` are falsy. -/
def pyTruthyInt : Option Int → Bool
  | none => false
  | some n => !(n == 0)

/-- Python `opt > k` under an `opt and opt > k` guard: `none` compares
falsy. -/
def optGtB (o : Option Int) (k : Int) : Bool :=
  match o with
  | some n => decide (k < n)
  | none => false

/-- `(type_str or '').strip().lower()` at the head of
`map_layout_type_to_mysql`. -/
def normType (type_str : List Char) : List Char :=
  (pyStripWs type_str).map lowerChar

/-- `map_layout_type_to_mysql` of `src/load_sigtap.py` (lines 219-252):
substring-match the normalized legacy type name against the known
vocabulary, in source order, and build the MySQL column type. -/
def map_layout_type_to_mysql (type_str : List Char) (length scale : Option Int) : String :=
  let t := normType type_str
  if pyIn ("varchar2".toList) t || pyIn ("varchar".toList) t then
    let L : Int := match length with
      | some n => if n ≤ 0 then 255 else n
      | none => 255
    if L > 65535 then "TEXT" else "VARCHAR(" ++ toString L ++ ")"
  else if t == "char".toList || pyIn ("char".toList) t then
    let L : Int := match length with
      | some n => if n ≤ 0 then 1 else n
      | none => 1
    "CHAR(" ++ toString L ++ ")"
  else if pyIn ("text".toList) t || pyIn ("clob".toList) t || pyIn ("memo".toList) t then
    if pyTruthyInt length && optGtB length 65535 then "LONGTEXT" else "TEXT"
  else if pyIn ("number".toList) t || pyIn ("numeric".toList) t || pyIn ("decimal".toList) t then
    let scale1 := if pyTruthyInt length && scale.isNone then some (0 : Int) else scale
    if pyTruthyInt length && scale1.isSome && optGtB length 0 then
      "DECIMAL(" ++ toString (min (length.getD 0) 65) ++ "," ++
        toString (max 0 (min (scale1.getD 0) 30)) ++ ")"
    else "DECIMAL(38,0)"
  else if pyIn ("bigint".toList) t then "BIGINT"
  else if pyIn ("int".toList) t then "INT"
  else if pyIn ("date".toList) t && !pyIn ("time".toList) t then "DATE"
  else if pyIn ("timestamp".toList) t || pyIn ("datetime".toList) t ||
      (pyIn ("date".toList) t && pyIn ("time".toList) t) then "DATETIME"
  else if pyIn ("float".toList) t || pyIn ("double".toList) t then "DOUBLE"
  else if pyIn ("bool".toList) t then "TINYINT(1)"
  else "TEXT"

/-- The normalized type name matches none of the mapper's vocabulary
(no branch guard of `map_layout_type_to_mysql` can fire). -/
def unrecognizedVocabB (t : List Char) : Bool :=
  !(pyIn ("varchar2".toList) t || pyIn ("varchar".toList) t ||
    t == "char".toList || pyIn ("char".toList) t ||
    pyIn ("text".toList) t || pyIn ("clob".toList) t || pyIn ("memo".toList) t ||
    pyIn ("number".toList) t || pyIn ("numeric".toList) t || pyIn ("decimal".toList) t ||
    pyIn ("bigint".toList) t || pyIn ("int".toList) t || pyIn ("date".toList) t ||
    pyIn ("timestamp".toList) t || pyIn ("datetime".toList) t ||
    pyIn ("float".toList) t || pyIn ("double".toList) t || pyIn ("bool".toList) t)

/-- Is `b` a valid UTF-8 continuation byte? -/
def utf8Cont (b : Nat) : Bool := decide (128 ≤ b ∧ b ≤ 191)

/-- Strict RFC 3629 UTF-8 validity of a byte sequence, as checked by
Python's `bytes.decode("utf-8")`. -/
def utf8Ok (l : List Nat) : Bool :=
  match l with
  | [] => true
  | b :: rest =>
    if b ≤ 127 then utf8Ok rest
    else if 194 ≤ b ∧ b ≤ 223 then
      match rest with
      | c :: r => utf8Cont c && utf8Ok r
      | [] => false
    else if b = 224 then
      match rest with
      | c :: d :: r => decide (160 ≤ c ∧ c ≤ 191) && utf8Cont d && utf8Ok r
      | _ => false
    else if (225 ≤ b ∧ b ≤ 236) ∨ b = 238 ∨ b = 239 then
      match rest with
      | c :: d :: r => utf8Cont c && utf8Cont d && utf8Ok r
      | _ => false
    else if b = 237 then
      match rest with
      | c :: d :: r => decide (128 ≤ c ∧ c ≤ 159) && utf8Cont d && utf8Ok r
      | _ => false
    else if b = 240 then
      match rest with
      | c :: d :: e :: r => decide (144 ≤ c ∧ c ≤ 191) && utf8Cont d && utf8Cont e && utf8Ok r
      | _ => false
    else if 241 ≤ b ∧ b ≤ 243 then
      match rest with
      | c :: d :: e :: r => utf8Cont c && utf8Cont d && utf8Cont e && utf8Ok r
      | _ => false
    else if b = 244 then
      match rest with
      | c :: d :: e :: r => decide (128 ≤ c ∧ c ≤ 143) && utf8Cont d && utf8Cont e && utf8Ok r
      | _ => false
    else false
termination_by l.length
decreasing_by all_goals (simp_all [List.length_cons]; try omega)

/-- Latin-1 decodes every byte sequence. -/
def latin1Ok (_ : List Nat) : Bool := true

/-- cp1252 decodes every byte except the five unassigned code points. -/
def cp1252Ok (s : List Nat) : Bool :=
  s.all (fun b => !(b = 129 || b = 141 || b = 143 || b = 144 || b = 157))

/-- `detect_encoding` of `src/load_sigtap.py` (lines 87-100).  The external
`chardet` library is modelled as an oracle argument: `none` when the
library is not installed, otherwise `some` of the optional encoding name
it reports.  A non-empty chardet answer is lower-cased and returned;
otherwise the decode-fallback chain `utf-8`, `latin-1`, `cp1252` runs,
with a final `"utf-8"` default. -/
def detect_encoding (chardetEnc : Option (Option (List Char))) (sample : List Nat) :
    List Char :=
  let fb : List Char :=
    if utf8Ok sample then "utf-8".toList
    else if latin1Ok sample then "latin-1".toList
    else if cp1252Ok sample then "cp1252".toList
    else "utf-8".toList
  match chardetEnc with
  | some res =>
    let enc := (match res with | some e => e | none => ([] : List Char)).map lowerChar
    if enc.isEmpty then fb else enc
  | none => fb

/-- One entry of the `positions` list built by `parse_layout_dataframe`:
the dict `{'coluna': name, 'inicio': int-or-None, 'fim': int-or-None}`. -/
structure LayoutPos where
  coluna : List Char
  inicio : Option Int
  fim : Option Int
deriving DecidableEq

/-- `col.get('inicio') or 1`: `None` and `0` are falsy and default to 1. -/
def pyOrOne : Option Int → Int
  | none => 1
  | some n => if n = 0 then 1 else n

/-- Extraction of one column from one line in `read_fixedwidth_file` of
`src/load_sigtap.py` (lines 300-313): the 1-based inclusive positions
become a 0-based half-open Python slice (to end-of-line when `fim` is
absent), and the slice is trimmed with `str.strip`. -/
def extractField (col : LayoutPos) (line : List Char) : List Char :=
  let ini : Nat := (pyOrOne col.inicio - 1).toNat
  match col.fim with
  | none => pyStripWs (line.drop ini)
  | some f => pyStripWs ((line.drop ini).take (max ini f.toNat - ini))

/-- One line of `read_fixedwidth_file`: the row dict in layout order. -/
def readFixedwidthLine (layout_info : List LayoutPos) (line : List Char) :
    List (List Char × List Char) :=
  layout_info.map (fun col => (col.coluna, extractField col line))

/-- Pure core of `read_fixedwidth_file` (lines 288-315): one record per
input line. -/
def read_fixedwidth_file (layout_info : List LayoutPos) (lines : List (List Char)) :
    List (List (List Char × List Char)) :=
  lines.map (readFixedwidthLine layout_info)

/-- Numeric value of a digit string. -/
def digitsVal (l : List Char) : Nat :=
  l.foldl (fun acc c => acc * 10 + (c.toNat - 48)) 0

/-- Python `int(str(x).strip())`, returning `none` on failure: optional
sign followed by one or more ASCII digits.  (Python additionally accepts
underscore digit grouping and non-ASCII digits; the layouts at hand use
neither.) -/
def pyInt? (l : List Char) : Option Int :=
  match pyStripWs l with
  | '+' :: r => if !r.isEmpty && r.all (fun c => c.isDigit) then some (digitsVal r) else none
  | '-' :: r =>
    if !r.isEmpty && r.all (fun c => c.isDigit) then some (-(digitsVal r : Int)) else none
  | r => if !r.isEmpty && r.all (fun c => c.isDigit) then some (digitsVal r) else none

/-- A pandas `DataFrame` read with `dtype=str`: column labels plus one
association list per row. -/
structure PyDataFrame where
  cols : List (List Char)
  rows : List (List (List Char × List Char))

/-- `row.get(key, '')`. -/
def rowGet (row : List (List Char × List Char)) (key : List Char) : List Char :=
  match row.find? (fun kv => kv.1 == key) with
  | some kv => kv.2
  | none => []

/-- `TableLayout` of `src/load_sigtap.py` (lines 255-258). -/
structure TableLayout where
  columns : List ColumnSpec
  positions : List LayoutPos

/-- The required layout columns of `parse_layout_dataframe`. -/
def requiredLayoutCols : List (List Char) :=
  ["coluna".toList, "tamanho".toList, "inicio".toList, "fim".toList, "tipo".toList]

/-- The per-row body of `parse_layout_dataframe` (lines 269-286): skip the
row when the stripped column name is empty; parse `tamanho` on its own;
parse `inicio` and `fim` inside one `try`, so a failure of either leaves
both unset; map the type; build the `ColumnSpec` and position dict. -/
def parseLayoutRow? (row : List (List Char × List Char)) : Option (ColumnSpec × LayoutPos) :=
  let raw_name := pyStripWs (rowGet row ("coluna".toList))
  if raw_name.isEmpty then none
  else
    let raw_type := pyStripWs (rowGet row ("tipo".toList))
    let length := pyInt? (rowGet row ("tamanho".toList))
    let startEnd : Option Int × Option Int :=
      match pyInt? (rowGet row ("inicio".toList)), pyInt? (rowGet row ("fim".toList)) with
      | some a, some b => (some a, some b)
      | _, _ => (none, none)
    some (ColumnSpec.make raw_name (map_layout_type_to_mysql raw_type length none) true,
      ⟨sanitize_table_name raw_name, startEnd.1, startEnd.2⟩)

/-- `parse_layout_dataframe` of `src/load_sigtap.py` (lines 261-287). -/
def parse_layout_dataframe (df : PyDataFrame) : Except String TableLayout :=
  let cols := df.cols.map (fun c => c.map lowerChar)
  if requiredLayoutCols.all (fun r => cols.contains r) then
    let pairs := df.rows.filterMap parseLayoutRow?
    Except.ok ⟨pairs.map Prod.fst, pairs.map Prod.snd⟩
  else
    Except.error "Layout invalido: esperado colunas coluna, tamanho, inicio, fim, tipo"

/-- Stated from the spec's words: each required column (`coluna, tamanho,
inicio, fim, tipo`) is present among the column labels, case-insensitively. -/
def requiredPresentSpec (df : PyDataFrame) : Prop :=
  ∀ r ∈ requiredLayoutCols, r ∈ df.cols.map (fun c => c.map lowerChar)

instance (df : PyDataFrame) : Decidable (requiredPresentSpec df) :=
  List.decidableBAll _ _

/-- Python truthiness of an optional string (`None` and `''` are falsy). -/
def pyTruthyStr : Option (List Char) → Bool
  | none => false
  | some s => !s.isEmpty

/-- The pure outcome of one `load_file_to_mysql` call: the resolved table
name and the final column list of the frame that is written. -/
structure LoadPlan where
  table : List Char
  cols : List (List Char)
deriving DecidableEq

/-- Pure core of `load_file_to_mysql` of `src/load_sigtap.py`
(lines 353-416): competency resolution (`competencia_override or
detect_competencia_from_path(file_path)`), table-name resolution
(lines 367-379), insertion of a leading `competencia` column only when no
layout governs (lines 401-403), and column alignment to the layout order
when one does (lines 405-416).  `layoutCols` is `some` of the layout's
column names when `layout_specs` is passed, `forceName` is
`force_table_name`, and `dfCols` are the parsed frame's columns. -/
def load_file_plan (pathStr stem : List Char) (compOverride : Option (List Char))
    (layoutCols : Option (List (List Char))) (forceName : Option (List Char))
    (dfCols : List (List Char)) : LoadPlan :=
  let competencia : Option (List Char) :=
    match compOverride with
    | some c => if c.isEmpty then detect_competencia_from_path pathStr else some c
    | none => detect_competencia_from_path pathStr
  let base := sanitize_table_name stem
  let table :=
    if layoutCols.isSome && pyTruthyStr forceName then
      sanitize_table_name (forceName.getD [])
    else
      match competencia with
      | some c => sanitize_table_name (base ++ '_' :: c)
      | none => base
  let cols1 :=
    if layoutCols.isNone && competencia.isSome &&
        !(dfCols.contains ("competencia".toList)) then
      ("competencia".toList) :: dfCols
    else dfCols
  let colsFinal :=
    match layoutCols with
    | some lcols =>
      let augmented := cols1 ++ lcols.filter (fun c => !(cols1.contains c))
      lcols.filter (fun c => augmented.contains c)
    | none => cols1
  ⟨table, colsFinal⟩

/-- The key under which `load_layouts_from_files` (lines 318-332) stores a
layout: the layout file's stem with the trailing `_layout` removed, then
sanitized. -/
def layout_base_key (layoutStem : List Char) : List Char :=
  sanitize_table_name (layoutStem.take (layoutStem.length - 7))

/-- The per-data-file glue of `main` (lines 536-559): the governing layout
is looked up under the sanitized, competency-suffix-stripped file stem,
and when found `load_file_to_mysql` receives its columns plus that key as
`force_table_name`.  `main` passes the competency detected from the
file's parent directory as override; it is a parameter here. -/
def main_file_plan (layoutKeyCols : List (List Char × List (List Char)))
    (stem pathStr : List Char) (parentOverride : Option (List Char))
    (dfCols : List (List Char)) : LoadPlan :=
  let base_key := sanitize_table_name (strip_competencia_suffix stem)
  match layoutKeyCols.find? (fun kv => kv.1 == base_key) with
  | some kv => load_file_plan pathStr stem parentOverride (some kv.2) (some base_key) dfCols
  | none => load_file_plan pathStr stem parentOverride none none dfCols

theorem mem_subRuns {p : Char → Bool} {l : List Char} {c : Char}
    (h : c ∈ subRuns p l) : c = '_' ∨ (c ∈ l ∧ p c = false) := by
  induction l with
  | nil => simp [subRuns] at h
  | cons a tail ih =>
    cases tail with
    | nil =>
      by_cases ha : p a = true
      · simp [subRuns, ha] at h
        exact Or.inl h
      · simp [subRuns, ha] at h
        subst h
        exact Or.inr ⟨List.mem_singleton.mpr rfl, Bool.eq_false_iff.mpr ha⟩
    | cons b r =>
      by_cases hab : (p a && p b) = true
      · rw [subRuns, if_pos hab] at h
        rcases ih h with h1 | ⟨h2, h3⟩
        · exact Or.inl h1
        · exact Or.inr ⟨List.mem_cons_of_mem _ h2, h3⟩
      · rw [subRuns, if_neg hab] at h
        rcases List.mem_cons.mp h with h1 | h1
        · by_cases ha : p a = true
          · rw [if_pos ha] at h1
            exact Or.inl h1
          · rw [if_neg ha] at h1
            subst h1
            exact Or.inr ⟨List.mem_cons_self _ _, Bool.eq_false_iff.mpr ha⟩
        · rcases ih h1 with h2 | ⟨h3, h4⟩
          · exact Or.inl h2
          · exact Or.inr ⟨List.mem_cons_of_mem _ h3, h4⟩

theorem subRuns_eq_self {p : Char → Bool} {l : List Char}
    (h : ∀ c ∈ l, p c = false) : subRuns p l = l := by
  induction l with
  | nil => rfl
  | cons a tail ih =>
    cases tail with
    | nil => simp [subRuns, h a (List.mem_singleton.mpr rfl)]
    | cons b r =>
      have ha := h a (List.mem_cons_self _ _)
      have hb := h b (List.mem_cons_of_mem _ (List.mem_cons_self _ _))
      rw [subRuns, if_neg (by simp [ha, hb]), if_neg (by simp [ha]),
        ih (fun c hc => h c (List.mem_cons_of_mem _ hc))]

theorem subRuns_head (p : Char → Bool) (d : Char) (r : List Char) :
    (subRuns p (d :: r)).head? = some (if p d then '_' else d) := by
  induction r generalizing d with
  | nil => by_cases hd : p d = true <;> simp [subRuns, hd]
  | cons e r' ih =>
    by_cases hde : (p d && p e) = true
    · rw [subRuns, if_pos hde, ih e]
      obtain ⟨hd, he⟩ := Bool.and_eq_true_iff.mp hde
      simp [hd, he]
    · rw [subRuns, if_neg hde]
      rfl

theorem noAdj_cons_tail {p : Char → Bool} {a : Char} {r : List Char}
    (h : noAdj p (a :: r) = true) : noAdj p r = true := by
  cases r with
  | nil => rfl
  | cons b t =>
    rw [noAdj] at h
    exact (Bool.and_eq_true_iff.mp h).2

theorem noAdj_subRuns (p : Char → Bool) (l : List Char) :
    noAdj p (subRuns p l) = true := by
  induction l with
  | nil => rfl
  | cons a tail ih =>
    cases tail with
    | nil => by_cases ha : p a = true <;> simp [subRuns, ha, noAdj]
    | cons b r =>
      by_cases hab : (p a && p b) = true
      · rw [subRuns, if_pos hab]
        exact ih
      · rw [subRuns, if_neg hab]
        have hhead := subRuns_head p b r
        cases hsub : subRuns p (b :: r) with
        | nil => exact rfl
        | cons h0 t0 =>
          rw [hsub] at hhead
          simp only [List.head?_cons, Option.some_inj] at hhead
          rw [noAdj]
          refine Bool.and_eq_true_iff.mpr ⟨?_, by rw [← hsub]; exact ih⟩
          by_cases ha : p a = true
          · have hb : p b = false := by
              cases hpb : p b
              · rfl
              · exact absurd (by simp [ha, hpb]) hab
            rw [hhead]
            simp [ha, hb]
          · rw [if_neg ha]
            simp [Bool.eq_false_iff.mpr ha]

theorem noAdj_dropWhile {p q : Char → Bool} {l : List Char}
    (h : noAdj p l = true) : noAdj p (l.dropWhile q) = true := by
  induction l with
  | nil => exact h
  | cons a r ih =>
    rw [List.dropWhile_cons]
    by_cases hq : q a = true
    · rw [if_pos hq]
      exact ih (noAdj_cons_tail h)
    · rw [if_neg hq]
      exact h

theorem rstripWhen_append (p : Char → Bool) (l : List Char) :
    ∃ t, l = rstripWhen p l ++ t := by
  induction l with
  | nil => exact ⟨[], rfl⟩
  | cons a r ih =>
    rw [rstripWhen]
    by_cases hc : ((rstripWhen p r).isEmpty && p a) = true
    · rw [if_pos hc]
      exact ⟨a :: r, rfl⟩
    · rw [if_neg hc]
      obtain ⟨t, ht⟩ := ih
      exact ⟨t, by rw [List.cons_append, ← ht]⟩

theorem noAdj_append_left {p : Char → Bool} {xs ys : List Char}
    (h : noAdj p (xs ++ ys) = true) : noAdj p xs = true := by
  induction xs with
  | nil => rfl
  | cons a r ih =>
    cases r with
    | nil => rfl
    | cons b t =>
      rw [List.cons_append, List.cons_append, noAdj] at h
      obtain ⟨h1, h2⟩ := Bool.and_eq_true_iff.mp h
      rw [noAdj]
      exact Bool.and_eq_true_iff.mpr ⟨h1, ih (by rw [List.cons_append]; exact h2)⟩

theorem dropWhile_head_not {q : Char → Bool} :
    ∀ {l : List Char} {x : Char}, (l.dropWhile q).head? = some x → q x = false := by
  intro l
  induction l with
  | nil => intro x h; simp at h
  | cons a r ih =>
    intro x h
    rw [List.dropWhile_cons] at h
    by_cases hq : q a = true
    · rw [if_pos hq] at h
      exact ih h
    · rw [if_neg hq] at h
      simp only [List.head?_cons, Option.some_inj] at h
      subst h
      exact Bool.eq_false_iff.mpr hq

theorem rstripWhen_head (p : Char → Bool) (l : List Char) :
    rstripWhen p l = [] ∨ (rstripWhen p l).head? = l.head? := by
  cases l with
  | nil => exact Or.inl rfl
  | cons a r =>
    rw [rstripWhen]
    by_cases hc : ((rstripWhen p r).isEmpty && p a) = true
    · rw [if_pos hc]
      exact Or.inl rfl
    · rw [if_neg hc]
      exact Or.inr rfl

theorem rstripWhen_last {p : Char → Bool} :
    ∀ {l : List Char} {x : Char}, (rstripWhen p l).getLast? = some x → p x = false := by
  intro l
  induction l with
  | nil => intro x h; simp [rstripWhen] at h
  | cons a r ih =>
    intro x h
    rw [rstripWhen] at h
    by_cases hc : ((rstripWhen p r).isEmpty && p a) = true
    · rw [if_pos hc] at h
      simp at h
    · rw [if_neg hc] at h
      cases hr : rstripWhen p r with
      | nil =>
        rw [hr] at h
        simp only [List.getLast?_singleton, Option.some_inj] at h
        subst h
        rw [hr] at hc
        simp only [List.isEmpty_nil, Bool.true_and] at hc
        exact Bool.eq_false_iff.mpr hc
      | cons d t =>
        rw [hr, List.getLast?_cons_cons, ← hr] at h
        exact ih h

theorem stripWhen_head {p : Char → Bool} {l : List Char} {x : Char}
    (h : (stripWhen p l).head? = some x) : p x = false := by
  rcases rstripWhen_head p (l.dropWhile p) with h0 | h0
  · rw [stripWhen, h0] at h
    simp at h
  · rw [stripWhen, h0] at h
    exact dropWhile_head_not h

theorem stripWhen_last {p : Char → Bool} {l : List Char} {x : Char}
    (h : (stripWhen p l).getLast? = some x) : p x = false :=
  rstripWhen_last h

theorem mem_rstripWhen {p : Char → Bool} {l : List Char} {c : Char}
    (h : c ∈ rstripWhen p l) : c ∈ l := by
  obtain ⟨t, ht⟩ := rstripWhen_append p l
  rw [ht]
  exact List.mem_append_left _ h

theorem mem_dropWhile {q : Char → Bool} {l : List Char} {c : Char}
    (h : c ∈ l.dropWhile q) : c ∈ l := by
  induction l with
  | nil => simp at h
  | cons a r ih =>
    rw [List.dropWhile_cons] at h
    by_cases hq : q a = true
    · rw [if_pos hq] at h
      exact List.mem_cons_of_mem _ (ih h)
    · rw [if_neg hq] at h
      exact h

theorem mem_stripWhen {p : Char → Bool} {l : List Char} {c : Char}
    (h : c ∈ stripWhen p l) : c ∈ l :=
  mem_dropWhile (mem_rstripWhen h)

theorem noAdj_stripWhen {p q : Char → Bool} {l : List Char}
    (h : noAdj p l = true) : noAdj p (stripWhen q l) = true := by
  obtain ⟨t, ht⟩ := rstripWhen_append q (l.dropWhile q)
  exact noAdj_append_left (ht ▸ noAdj_dropWhile h)

theorem dropWhile_eq_self {q : Char → Bool} {l : List Char}
    (h : ∀ x, l.head? = some x → q x = false) : l.dropWhile q = l := by
  cases l with
  | nil => rfl
  | cons a r =>
    rw [List.dropWhile_cons, if_neg]
    simp [h a rfl]

theorem rstripWhen_eq_self {p : Char → Bool} {l : List Char}
    (h : ∀ x, l.getLast? = some x → p x = false) : rstripWhen p l = l := by
  induction l with
  | nil => rfl
  | cons a r ih =>
    cases hr : r with
    | nil =>
      subst hr
      have hpa : p a = false := h a rfl
      simp [rstripWhen, hpa]
    | cons b t =>
      subst hr
      have hr' : rstripWhen p (b :: t) = b :: t :=
        ih (fun x hx => h x (by rw [List.getLast?_cons_cons]; exact hx))
      rw [rstripWhen, hr']
      simp

theorem stripWhen_eq_self {p : Char → Bool} {l : List Char}
    (hh : ∀ x, l.head? = some x → p x = false)
    (hl : ∀ x, l.getLast? = some x → p x = false) : stripWhen p l = l := by
  rw [stripWhen, dropWhile_eq_self hh, rstripWhen_eq_self hl]

theorem subRuns_underscore_eq_self : ∀ {l : List Char},
    noAdj (fun c => c == '_') l = true → subRuns (fun c => c == '_') l = l := by
  intro l
  induction l with
  | nil => intro _; rfl
  | cons a r ih =>
    intro h
    cases r with
    | nil =>
      by_cases ha : (a == '_') = true
      · have ha' : a = '_' := by simpa using ha
        simp [subRuns, ha, ha']
      · simp [subRuns, ha]
    | cons b t =>
      rw [noAdj] at h
      obtain ⟨h1, h2⟩ := Bool.and_eq_true_iff.mp h
      have h1' : ((fun c => c == '_') a && (fun c => c == '_') b) = false := by
        cases hx : ((fun c => c == '_') a && (fun c => c == '_') b) with
        | false => rfl
        | true => rw [hx] at h1; simp at h1
      rw [subRuns, if_neg (by simp [h1']), ih h2]
      by_cases ha : (a == '_') = true
      · have ha' : a = '_' := by simpa using ha
        rw [if_pos ha, ha']
      · rw [if_neg ha]

theorem lowerChar_approved {c : Char} (h : isApprovedChar c = true) : lowerChar c = c := by
  rw [lowerChar, if_neg]
  rw [isApprovedChar] at h
  simp only [Bool.or_eq_true, decide_eq_true_eq] at h
  omega

theorem map_lower_eq_self {l : List Char}
    (h : ∀ c ∈ l, isApprovedChar c = true) : l.map lowerChar = l := by
  induction l with
  | nil => rfl
  | cons a r ih =>
    rw [List.map_cons, lowerChar_approved (h a (List.mem_cons_self _ _)),
      ih (fun c hc => h c (List.mem_cons_of_mem _ hc))]

theorem sanitizeCore_approved {l : List Char} {c : Char}
    (h : c ∈ sanitizeCore l) : isApprovedChar c = true := by
  rw [sanitizeCore] at h
  have h3 := mem_stripWhen h
  rcases mem_subRuns h3 with h4 | ⟨h4, _⟩
  · subst h4; decide
  rcases mem_subRuns h4 with h5 | ⟨_, h6⟩
  · subst h5; decide
  · simpa using h6

theorem sanitizeCore_noAdj (l : List Char) :
    noAdj (fun c => c == '_') (sanitizeCore l) = true :=
  noAdj_stripWhen (noAdj_subRuns _ _)

/-- `sanitizeCore` (everything except the 64-character truncation) is
idempotent: its output is already lower-case `[a-z0-9_]` text with no
repeated, leading, or trailing underscore, which every stage fixes. -/
theorem sanitizeCore_fixpoint (l : List Char) :
    sanitizeCore (sanitizeCore l) = sanitizeCore l := by
  have hmap : (sanitizeCore l).map lowerChar = sanitizeCore l :=
    map_lower_eq_self (fun c hc => sanitizeCore_approved hc)
  have hsub2 : subRuns (fun c => !(isApprovedChar c)) (sanitizeCore l) = sanitizeCore l :=
    subRuns_eq_self (fun c hc => by simp [sanitizeCore_approved hc])
  have hsub3 : subRuns (fun c => c == '_') (sanitizeCore l) = sanitizeCore l :=
    subRuns_underscore_eq_self (sanitizeCore_noAdj l)
  have hhd : ∀ x, (sanitizeCore l).head? = some x → (x == '_') = false := by
    intro x hx
    rw [sanitizeCore] at hx
    exact @stripWhen_head (fun c => c == '_') _ x hx
  have hlast : ∀ x, (sanitizeCore l).getLast? = some x → (x == '_') = false := by
    intro x hx
    rw [sanitizeCore] at hx
    exact @stripWhen_last (fun c => c == '_') _ x hx
  have hstrip : stripWhen (fun c => c == '_') (sanitizeCore l) = sanitizeCore l :=
    stripWhen_eq_self hhd hlast
  calc sanitizeCore (sanitizeCore l)
      = stripWhen (fun c => c == '_')
          (subRuns (fun c => c == '_')
            (subRuns (fun c => !(isApprovedChar c)) ((sanitizeCore l).map lowerChar))) := rfl
    _ = sanitizeCore l := by rw [hmap, hsub2, hsub3, hstrip]

set_option maxRecDepth 4000 in
/-- C1 counterexample: `sanitize_table_name` is NOT idempotent on a string
whose sanitized form is longer than 64 characters before truncation.  For
63 `a`s followed by `.b`, the pre-truncation form is 63 `a`s, `_`, `b`
(65 characters); truncation keeps a trailing underscore which a second
application strips. -/
theorem claim_C1_counterexample :
    sanitize_table_name
        (sanitize_table_name (List.replicate 63 'a' ++ ['.', 'b'])) ≠
      sanitize_table_name (List.replicate 63 'a' ++ ['.', 'b']) := by
  decide

/-- C1 (amended): `sanitize_table_name` is idempotent on every string whose
sanitized form is at most 64 characters before the final truncation (for
longer ones the truncation can expose a trailing underscore that a second
application strips). -/
theorem claim_C1_sanitize_idempotent_within_limit (l : List Char)
    (h : (sanitizeCore l).length ≤ 64) :
    sanitize_table_name (sanitize_table_name l) = sanitize_table_name l := by
  have h1 : sanitize_table_name l = sanitizeCore l := List.take_of_length_le h
  rw [h1, sanitize_table_name, sanitizeCore_fixpoint, ← sanitize_table_name, h1]

/-- Witness for C1 at the concrete input `"Hello, World!"`. -/
theorem claim_C1_witness :
    (sanitizeCore ("Hello, World!".toList)).length ≤ 64 ∧
      sanitize_table_name (sanitize_table_name ("Hello, World!".toList)) =
        sanitize_table_name ("Hello, World!".toList) :=
  ⟨by decide, claim_C1_sanitize_idempotent_within_limit _ (by decide)⟩

/-- C9 counterexample: the name of a `ColumnSpec` built from `"!!!"` is the
empty string — the claimed non-emptiness invariant fails (sanitization can
strip every character). -/
theorem claim_C9_counterexample :
    (ColumnSpec.make ['!', '!', '!'] "TEXT" true).name = [] := by
  decide

/-- C9 (amended): for every input string, the `ColumnSpec` name is at most
64 characters and contains only lower-case alphanumerics and underscores;
it can be empty when the input has no alphanumeric characters. -/
theorem claim_C9_column_name_invariant (name : List Char) (t : String) (nb : Bool) :
    (ColumnSpec.make name t nb).name.length ≤ 64 ∧
      ∀ c ∈ (ColumnSpec.make name t nb).name, isApprovedChar c = true := by
  constructor
  · rw [ColumnSpec.make, sanitize_table_name]
    rw [List.length_take]
    exact min_le_left _ _
  · intro c hc
    rw [ColumnSpec.make, sanitize_table_name] at hc
    exact sanitizeCore_approved (List.take_subset _ _ hc)

theorem reSearch6_length {patAt : List Char → Bool}
    (hpat : ∀ l, patAt l = true → 6 ≤ l.length) :
    ∀ {s t : List Char}, reSearch6 patAt s = some t → t.length = 6 := by
  intro s
  induction s with
  | nil => intro t h; simp [reSearch6] at h
  | cons c r ih =>
    intro t h
    rw [reSearch6] at h
    by_cases hp : patAt (c :: r) = true
    · rw [if_pos hp] at h
      simp only [Option.some_inj] at h
      subst h
      rw [List.length_take]
      exact Nat.min_eq_left (hpat _ hp)
    · rw [if_neg hp] at h
      exact ih h

theorem pat1At_length {l : List Char} (h : pat1At l = true) : 6 ≤ l.length := by
  match l with
  | a :: b :: c :: d :: e :: f :: rest => simp
  | [] => simp [pat1At] at h
  | [a] => simp [pat1At] at h
  | [a, b] => simp [pat1At] at h
  | [a, b, c] => simp [pat1At] at h
  | [a, b, c, d] => simp [pat1At] at h
  | [a, b, c, d, e] => simp [pat1At] at h

theorem pat2At_length {l : List Char} (h : pat2At l = true) : 6 ≤ l.length := by
  match l with
  | a :: b :: c :: d :: e :: f :: rest => simp
  | [] => simp [pat2At] at h
  | [a] => simp [pat2At] at h
  | [a, b] => simp [pat2At] at h
  | [a, b, c] => simp [pat2At] at h
  | [a, b, c, d] => simp [pat2At] at h
  | [a, b, c, d, e] => simp [pat2At] at h

/-- C2: whenever `detect_competencia_from_path` returns a tag, the tag has
exactly 6 characters and its last two digits form a month between 1 and
12; a tag with month 0 or 13 is never returned. -/
theorem detectPat2_valid {s t : List Char} (h : detectPat2 s = some t) :
    t.length = 6 ∧ 1 ≤ twoDigitVal t ∧ twoDigitVal t ≤ 12 := by
  rw [detectPat2] at h
  split at h
  · next comp2 h2 =>
      split at h
      · next hv2 =>
          simp only [Option.some_inj] at h
          subst h
          exact ⟨reSearch6_length (fun _ => pat2At_length) h2, hv2⟩
      · simp at h
  · simp at h

theorem claim_C2_competencia_validity (s t : List Char)
    (h : detect_competencia_from_path s = some t) :
    t.length = 6 ∧ 1 ≤ twoDigitVal t ∧ twoDigitVal t ≤ 12 := by
  rw [detect_competencia_from_path] at h
  split at h
  · next comp h1 =>
      split at h
      · next hv =>
          simp only [Option.some_inj] at h
          subst h
          exact ⟨reSearch6_length (fun _ => pat1At_length) h1, hv⟩
      · exact detectPat2_valid h
  · exact detectPat2_valid h

/-- Witness for C2 at the concrete path `"producao_202301.txt"`. -/
theorem claim_C2_witness :
    detect_competencia_from_path ("producao_202301.txt".toList) = some ("202301".toList) ∧
      ("202301".toList).length = 6 ∧
      1 ≤ twoDigitVal ("202301".toList) ∧ twoDigitVal ("202301".toList) ≤ 12 :=
  ⟨by decide,
    claim_C2_competencia_validity ("producao_202301.txt".toList) ("202301".toList) (by decide)⟩

/-- C10: the extractor inspects only the leftmost match of each pattern.
On `"209913_202301"` the leftmost match of the preferred pattern is
`209913` (month 13, invalid) and the leftmost match of the generic
pattern is the same, so the function returns `none` — even though the
preferred pattern also matches at offset 7 with the valid month 01. -/
theorem claim_C10_leftmost_match_only :
    detect_competencia_from_path ("209913_202301".toList) = none ∧
      pat1At (("209913_202301".toList).drop 7) = true ∧
      1 ≤ twoDigitVal ((("209913_202301".toList).drop 7).take 6) ∧
      twoDigitVal ((("209913_202301".toList).drop 7).take 6) ≤ 12 := by
  decide

theorem bestDelim_mem : ∀ (l : List (Char × Nat)) (best : Char × Nat),
    bestDelim l best ∈ best :: l := by
  intro l
  induction l with
  | nil => intro best; exact List.mem_singleton.mpr rfl
  | cons x r ih =>
    intro best
    rw [bestDelim]
    by_cases hx : best.2 < x.2
    · rw [if_pos hx]
      rcases List.mem_cons.mp (ih x) with h | h
      · rw [h]
        exact List.mem_cons_of_mem _ (List.mem_cons_self _ _)
      · exact List.mem_cons_of_mem _ (List.mem_cons_of_mem _ h)
    · rw [if_neg hx]
      rcases List.mem_cons.mp (ih best) with h | h
      · rw [h]
        exact List.mem_cons_self _ _
      · exact List.mem_cons_of_mem _ (List.mem_cons_of_mem _ h)

theorem bestDelim_ge : ∀ (l : List (Char × Nat)) (best y : Char × Nat),
    y ∈ best :: l → y.2 ≤ (bestDelim l best).2 := by
  intro l
  induction l with
  | nil =>
    intro best y hy
    rcases List.mem_cons.mp hy with h | h
    · rw [h]; exact Nat.le_refl _
    · simp at h
  | cons x r ih =>
    intro best y hy
    rw [bestDelim]
    have hbest : best.2 ≤ (if best.2 < x.2 then x else best).2 := by
      by_cases hx : best.2 < x.2
      · rw [if_pos hx]; exact Nat.le_of_lt hx
      · rw [if_neg hx]
    have hx2 : x.2 ≤ (if best.2 < x.2 then x else best).2 := by
      by_cases hx : best.2 < x.2
      · rw [if_pos hx]
      · rw [if_neg hx]; exact Nat.le_of_not_lt hx
    rcases List.mem_cons.mp hy with h | h
    · rw [h]
      exact Nat.le_trans hbest (ih _ _ (List.mem_cons_self _ _))
    · rcases List.mem_cons.mp h with h2 | h2
      · rw [h2]
        exact Nat.le_trans hx2 (ih _ _ (List.mem_cons_self _ _))
      · exact ih _ _ (List.mem_cons_of_mem _ h2)

/-- C6: the delimiter detector always returns a candidate from
`{|, ;, ,, tab}` whose occurrence count is maximal among the candidates;
on `"a|b|c\n1|2|3"` it returns `|`; and when every candidate count is
zero it returns `|`. -/
theorem claim_C6_delimiter_detection :
    (∀ s d, d ∈ candidateDelims → pyCount d s ≤ pyCount (detect_delimiter s) s) ∧
      (∀ s, detect_delimiter s ∈ candidateDelims) ∧
      detect_delimiter ("a|b|c\n1|2|3".toList) = '|' ∧
      (∀ s, (∀ d ∈ candidateDelims, pyCount d s = 0) → detect_delimiter s = '|') := by
  have hcounts : ∀ s kv, kv ∈ candidateDelims.map (fun d => (d, pyCount d s)) →
      kv.2 = pyCount kv.1 s ∧ kv.1 ∈ candidateDelims := by
    intro s kv hkv
    obtain ⟨d, hd, hkv'⟩ := List.mem_map.mp hkv
    subst hkv'
    exact ⟨rfl, hd⟩
  refine ⟨?_, ?_, by decide, ?_⟩
  · intro s d hd
    rw [detect_delimiter]
    by_cases hz : ((candidateDelims.map (fun d => (d, pyCount d s))).all
        (fun kv => kv.2 == 0)) = true
    · have := List.all_eq_true.mp hz (d, pyCount d s) (List.mem_map_of_mem _ hd)
      simp only [beq_iff_eq] at this
      simp only [hz, if_pos]
      rw [show pyCount d s = 0 from this]
      exact Nat.zero_le _
    · simp only [candidateDelims, List.map] at hz ⊢
      rw [if_neg hz]
      have hmem := bestDelim_mem [(';', pyCount ';' s), (',', pyCount ',' s),
        ('\t', pyCount '\t' s)] ('|', pyCount '|' s)
      have hres := hcounts s _ (by
        simpa only [candidateDelims, List.map] using hmem)
      have hge := bestDelim_ge [(';', pyCount ';' s), (',', pyCount ',' s),
        ('\t', pyCount '\t' s)] ('|', pyCount '|' s) (d, pyCount d s) (by
          simp only [candidateDelims, List.mem_cons, List.mem_singleton,
            List.not_mem_nil, or_false] at hd
          rcases hd with h | h | h | h <;> subst h <;> simp)
      calc pyCount d s
          ≤ (bestDelim [(';', pyCount ';' s), (',', pyCount ',' s),
              ('\t', pyCount '\t' s)] ('|', pyCount '|' s)).2 := hge
        _ = pyCount (bestDelim [(';', pyCount ';' s), (',', pyCount ',' s),
              ('\t', pyCount '\t' s)] ('|', pyCount '|' s)).1 s := hres.1
  · intro s
    rw [detect_delimiter]
    by_cases hz : ((candidateDelims.map (fun d => (d, pyCount d s))).all
        (fun kv => kv.2 == 0)) = true
    · simp only [hz, if_pos]
      decide
    · simp only [candidateDelims, List.map] at hz ⊢
      rw [if_neg hz]
      have hmem := bestDelim_mem [(';', pyCount ';' s), (',', pyCount ',' s),
        ('\t', pyCount '\t' s)] ('|', pyCount '|' s)
      exact (hcounts s _ (by simpa only [candidateDelims, List.map] using hmem)).2
  · intro s hzero
    rw [detect_delimiter]
    have hz : ((candidateDelims.map (fun d => (d, pyCount d s))).all
        (fun kv => kv.2 == 0)) = true := by
      apply List.all_eq_true.mpr
      intro kv hkv
      obtain ⟨h1, h2⟩ := hcounts s kv hkv
      simp only [beq_iff_eq]
      rw [h1]
      exact hzero _ h2
    simp only [hz, if_pos]

/-- Witness for C6's quantified conjuncts at concrete inputs. -/
theorem claim_C6_witness :
    (';' ∈ candidateDelims ∧
      pyCount ';' ("a;b".toList) ≤ pyCount (detect_delimiter ("a;b".toList)) ("a;b".toList)) ∧
      ((∀ d ∈ candidateDelims, pyCount d ("abc".toList) = 0) ∧
        detect_delimiter ("abc".toList) = '|') :=
  ⟨⟨by decide, claim_C6_delimiter_detection.1 ("a;b".toList) ';' (by decide)⟩,
    ⟨by decide, claim_C6_delimiter_detection.2.2.2 ("abc".toList) (by decide)⟩⟩

/-- Witness for C9 at the concrete input `"Nome Coluna!"`. -/
theorem claim_C9_witness :
    (ColumnSpec.make ("Nome Coluna!".toList) "TEXT" true).name.length ≤ 64 ∧
      ∀ c ∈ (ColumnSpec.make ("Nome Coluna!".toList) "TEXT" true).name,
        isApprovedChar c = true :=
  claim_C9_column_name_invariant ("Nome Coluna!".toList) "TEXT" true

/-- C4: the Type Mapper and the Encoding Detector are total.  Both are
total Lean functions by construction; in addition (i) every type name
whose normalized form matches none of the mapper's vocabulary maps to
`TEXT`, and (ii) the encoding detector always returns a non-empty
encoding name, for every chardet oracle answer and every byte sample. -/
theorem claim_C4_mapper_encoding_total :
    (∀ type_str length scale, unrecognizedVocabB (normType type_str) = true →
      map_layout_type_to_mysql type_str length scale = "TEXT") ∧
      (∀ chardetEnc sample, detect_encoding chardetEnc sample ≠ []) := by
  constructor
  · intro ts length scale h
    simp only [unrecognizedVocabB, Bool.not_eq_true', Bool.or_eq_false_iff, and_assoc] at h
    obtain ⟨h1, h2, h3, h4, h5, h6, h7, h8, h9, h10, h11, h12, h13, h14, h15, h16,
      h17, h18⟩ := h
    simp_all [map_layout_type_to_mysql]
  · intro ce sample
    have hfb : (if utf8Ok sample then "utf-8".toList
        else if latin1Ok sample then "latin-1".toList
        else if cp1252Ok sample then "cp1252".toList
        else "utf-8".toList) ≠ [] := by
      by_cases h1 : utf8Ok sample = true
      · simp [h1]
      · simp [h1, latin1Ok]
    cases ce with
    | none => simpa [detect_encoding] using hfb
    | some res =>
      simp only [detect_encoding]
      by_cases he :
          ((match res with | some e => e | none => ([] : List Char)).map lowerChar).isEmpty = true
      · simpa [he] using hfb
      · rw [if_neg (by simp [he])]
        intro hx
        rw [hx] at he
        simp at he

/-- Witness for C4's quantified mapper conjunct at the unrecognized type
name `"foo"`. -/
theorem claim_C4_witness :
    unrecognizedVocabB (normType ("foo".toList)) = true ∧
      map_layout_type_to_mysql ("foo".toList) (some 7) (some 3) = "TEXT" :=
  ⟨by decide,
    claim_C4_mapper_encoding_total.1 ("foo".toList) (some 7) (some 3) (by decide)⟩

/-- C5 counterexample: `"chardecimal"` contains `decimal`, yet the mapper
returns `CHAR(5)` for it (the `char` branch fires first), not the
`DECIMAL(5,0)` the claim requires for every name containing `decimal`. -/
theorem claim_C5_counterexample :
    pyIn ("decimal".toList) (normType ("chardecimal".toList)) = true ∧
      map_layout_type_to_mysql ("chardecimal".toList) (some 5) none = "CHAR(5)" ∧
      ("CHAR(5)" : String) ≠ "DECIMAL(5,0)" :=
  ⟨by decide, by decide, by decide⟩

/-- C5 (amended): for every type name whose normalized form contains
`number`, `numeric` or `decimal` and matches none of the earlier-priority
vocabulary (`varchar2`, `varchar`, `char`, `text`, `clob`, `memo`): with a
positive length the mapper returns `DECIMAL(min(length,65), s)` where `s`
is the scale (defaulting to 0 when absent) clamped to `[0,30]`, and with
no length it returns `DECIMAL(38,0)`. -/
theorem claim_C5_decimal_mapping (type_str : List Char) (length : Int) (scale : Option Int)
    (hnum : pyIn ("number".toList) (normType type_str) = true ∨
      pyIn ("numeric".toList) (normType type_str) = true ∨
      pyIn ("decimal".toList) (normType type_str) = true)
    (hv2 : pyIn ("varchar2".toList) (normType type_str) = false)
    (hv : pyIn ("varchar".toList) (normType type_str) = false)
    (hceq : (normType type_str == "char".toList) = false)
    (hc : pyIn ("char".toList) (normType type_str) = false)
    (ht : pyIn ("text".toList) (normType type_str) = false)
    (hcl : pyIn ("clob".toList) (normType type_str) = false)
    (hm : pyIn ("memo".toList) (normType type_str) = false) :
    (0 < length →
      map_layout_type_to_mysql type_str (some length) scale =
        "DECIMAL(" ++ toString (min length 65) ++ "," ++
          toString (max 0 (min (scale.getD 0) 30)) ++ ")") ∧
      map_layout_type_to_mysql type_str none scale = "DECIMAL(38,0)" := by
  have hg : (pyIn ("number".toList) (normType type_str) ||
      pyIn ("numeric".toList) (normType type_str) ||
      pyIn ("decimal".toList) (normType type_str)) = true := by
    rcases hnum with h | h | h <;> simp_all
  constructor
  · intro hpos
    have hT : pyTruthyInt (some length) = true := by
      simp only [pyTruthyInt, Bool.not_eq_true', beq_eq_false_iff_ne, ne_eq]
      omega
    have hG : optGtB (some length) 0 = true := by
      simp only [optGtB, decide_eq_true_eq]
      exact hpos
    cases scale with
    | none =>
      clear hnum
      simp_all [map_layout_type_to_mysql]
    | some s =>
      clear hnum
      simp_all [map_layout_type_to_mysql]
  · clear hnum
    simp_all [map_layout_type_to_mysql, pyTruthyInt]

/-- Witness for C5 at the concrete type name `"number"`. -/
theorem claim_C5_witness :
    map_layout_type_to_mysql ("number".toList) (some 10) (some 2) = "DECIMAL(10,2)" ∧
      map_layout_type_to_mysql ("number".toList) none (some 2) = "DECIMAL(38,0)" := by
  have h := claim_C5_decimal_mapping ("number".toList) 10 (some 2)
    (Or.inl (by decide)) (by decide) (by decide) (by decide) (by decide)
    (by decide) (by decide) (by decide)
  refine ⟨?_, h.2⟩
  rw [h.1 (by norm_num)]
  decide

/-- C3: fixed-width extraction.  (i) For the layout `a:1-3, b:4-6` and the
line `"ABCDEF"`, reading yields `a:"ABC", b:"DEF"`.  (ii) A positive
1-based inclusive range `s..e` is read as the trimmed 0-based half-open
slice `[s-1, e)`.  (iii) An absent `fim` slices to end-of-line, trimmed.
(iv) A range starting beyond the line's length yields the empty string,
never an error. -/
theorem claim_C3_fixed_width_reading :
    readFixedwidthLine
        [⟨"a".toList, some 1, some 3⟩, ⟨"b".toList, some 4, some 6⟩] ("ABCDEF".toList) =
      [("a".toList, "ABC".toList), ("b".toList, "DEF".toList)] ∧
      (∀ name s e line, 0 < s → s ≤ e →
        extractField ⟨name, some s, some e⟩ line =
          pyStripWs ((line.drop (s - 1).toNat).take (e - s + 1).toNat)) ∧
      (∀ name i line,
        extractField ⟨name, i, none⟩ line =
          pyStripWs (line.drop ((pyOrOne i - 1).toNat))) ∧
      (∀ name i f line, line.length ≤ (pyOrOne i - 1).toNat →
        extractField ⟨name, i, f⟩ line = []) := by
  refine ⟨by decide, ?_, ?_, ?_⟩
  · intro name s e line hs hse
    have hpy : pyOrOne (some s) = s := by
      rw [pyOrOne, if_neg (by omega)]
    simp only [extractField, hpy]
    have h1 : max (s - 1).toNat e.toNat = e.toNat := by omega
    have h2 : e.toNat - (s - 1).toNat = (e - s + 1).toNat := by omega
    rw [h1, h2]
  · intro name i line
    simp only [extractField]
  · intro name i f line hlen
    have hdrop : line.drop ((pyOrOne i - 1)).toNat = [] := List.drop_eq_nil_of_le hlen
    cases f with
    | none =>
      simp only [extractField, hdrop]
      rfl
    | some f' =>
      simp only [extractField, hdrop, List.take_nil]
      rfl

/-- Witness for C3's quantified conjuncts at concrete inputs. -/
theorem claim_C3_witness :
    extractField ⟨"a".toList, some 2, some 4⟩ ("ABCDEF".toList) =
        pyStripWs (((("ABCDEF".toList).drop ((2 : Int) - 1).toNat)).take
          (((4 : Int) - 2 + 1)).toNat) ∧
      extractField ⟨"b".toList, some 3, none⟩ ("ABCDEF".toList) =
        pyStripWs (("ABCDEF".toList).drop ((pyOrOne (some 3) - 1)).toNat) ∧
      ("AB".toList).length ≤ (pyOrOne (some 10) - 1).toNat ∧
      extractField ⟨"c".toList, some 10, some 12⟩ ("AB".toList) = [] :=
  ⟨claim_C3_fixed_width_reading.2.1 ("a".toList) 2 4 ("ABCDEF".toList)
      (by norm_num) (by norm_num),
    claim_C3_fixed_width_reading.2.2.1 ("b".toList) (some 3) ("ABCDEF".toList),
    by decide,
    claim_C3_fixed_width_reading.2.2.2 ("c".toList) (some 10) (some 12) ("AB".toList)
      (by decide)⟩

theorem requiredPresent_iff (df : PyDataFrame) :
    (requiredLayoutCols.all
      (fun r => (df.cols.map (fun c => c.map lowerChar)).contains r)) = true ↔
      requiredPresentSpec df := by
  rw [List.all_eq_true, requiredPresentSpec]
  constructor
  · intro h r hr
    exact List.elem_iff.mp (h r hr)
  · intro h r hr
    exact List.elem_iff.mpr (h r hr)

theorem length_filterMap_eq {α β : Type} (f : α → Option β) (p : α → Bool)
    (hf : ∀ x, (f x).isSome = p x) :
    ∀ l : List α, (l.filterMap f).length = (l.filter p).length := by
  intro l
  induction l with
  | nil => rfl
  | cons a r ih =>
    cases hfa : f a with
    | none =>
      have hpa : p a = false := by
        have := hf a
        rw [hfa] at this
        simpa using this.symm
      rw [List.filterMap_cons, List.filter_cons, hfa, hpa]
      simpa using ih
    | some b =>
      have hpa : p a = true := by
        have := hf a
        rw [hfa] at this
        simpa using this.symm
      rw [List.filterMap_cons, List.filter_cons, hfa, hpa]
      simpa using ih

theorem parseLayoutRow_isSome (row : List (List Char × List Char)) :
    (parseLayoutRow? row).isSome =
      !(pyStripWs (rowGet row ("coluna".toList))).isEmpty := by
  rw [parseLayoutRow?]
  split
  · next hn =>
      rw [hn]
      rfl
  · next hn =>
      rw [Bool.eq_false_iff.mpr hn]
      rfl

theorem parseLayoutRow_inicio_fim {row : List (List Char × List Char)}
    {pr : ColumnSpec × LayoutPos} (h : parseLayoutRow? row = some pr) :
    pr.2.inicio.isSome = pr.2.fim.isSome := by
  rw [parseLayoutRow?] at h
  split at h
  · simp at h
  · simp only [Option.some_inj] at h
    subst h
    split
    · simp
    · simp

/-- C7 (amended): the layout parser raises a validation error iff a
required column is missing (case-insensitively); with all required
columns present it never raises, rows whose stripped column name is
empty are skipped (the layout has exactly one entry per non-empty-name
row), and in every produced position `inicio` and `fim` are either both
set or both unset (they are parsed inside a single `try`, so a parse
failure of either leaves both null while the rest of the row and layout
are still produced). -/
theorem claim_C7_layout_validation (df : PyDataFrame) :
    ((∃ msg, parse_layout_dataframe df = Except.error msg) ↔ ¬ requiredPresentSpec df) ∧
      (requiredPresentSpec df →
        ∃ L, parse_layout_dataframe df = Except.ok L ∧
          L.columns.length = L.positions.length ∧
          L.positions.length =
            (df.rows.filter
              (fun row => !(pyStripWs (rowGet row ("coluna".toList))).isEmpty)).length ∧
          ∀ p ∈ L.positions, p.inicio.isSome = p.fim.isSome) := by
  constructor
  · constructor
    · rintro ⟨msg, hmsg⟩ hpres
      rw [parse_layout_dataframe] at hmsg
      rw [if_pos ((requiredPresent_iff df).mpr hpres)] at hmsg
      simp at hmsg
    · intro hnp
      refine ⟨"Layout invalido: esperado colunas coluna, tamanho, inicio, fim, tipo", ?_⟩
      rw [parse_layout_dataframe]
      rw [if_neg (fun hcond => hnp ((requiredPresent_iff df).mp hcond))]
  · intro hpres
    refine ⟨⟨(df.rows.filterMap parseLayoutRow?).map Prod.fst,
      (df.rows.filterMap parseLayoutRow?).map Prod.snd⟩, ?_, ?_, ?_, ?_⟩
    · rw [parse_layout_dataframe]
      rw [if_pos ((requiredPresent_iff df).mpr hpres)]
    · simp
    · rw [List.length_map]
      exact length_filterMap_eq parseLayoutRow? _ parseLayoutRow_isSome df.rows
    · intro p hp
      obtain ⟨pr, hpr, hp2⟩ := List.mem_map.mp hp
      obtain ⟨row, _, hrow⟩ := List.mem_filterMap.mp hpr
      subst hp2
      exact parseLayoutRow_inicio_fim hrow

/-- Witness for C7 at a concrete frame: all required columns present, one
row with an empty name (skipped), one row with `fim` unparsable. -/
theorem claim_C7_witness :
    requiredPresentSpec
      ⟨["coluna".toList, "tamanho".toList, "inicio".toList, "fim".toList, "tipo".toList],
        [[("coluna".toList, " ".toList)],
          [("coluna".toList, "a".toList), ("tamanho".toList, "5".toList),
            ("inicio".toList, "1".toList), ("fim".toList, "x".toList),
            ("tipo".toList, "num".toList)]]⟩ ∧
      ∃ L, parse_layout_dataframe
          ⟨["coluna".toList, "tamanho".toList, "inicio".toList, "fim".toList, "tipo".toList],
            [[("coluna".toList, " ".toList)],
              [("coluna".toList, "a".toList), ("tamanho".toList, "5".toList),
                ("inicio".toList, "1".toList), ("fim".toList, "x".toList),
                ("tipo".toList, "num".toList)]]⟩ = Except.ok L ∧
        L.columns.length = L.positions.length ∧
        L.positions.length =
          (([[("coluna".toList, " ".toList)],
            [("coluna".toList, "a".toList), ("tamanho".toList, "5".toList),
              ("inicio".toList, "1".toList), ("fim".toList, "x".toList),
              ("tipo".toList, "num".toList)]] :
              List (List (List Char × List Char))).filter
            (fun row => !(pyStripWs (rowGet row ("coluna".toList))).isEmpty)).length ∧
        ∀ p ∈ L.positions, p.inicio.isSome = p.fim.isSome :=
  ⟨by decide,
    (claim_C7_layout_validation
      ⟨["coluna".toList, "tamanho".toList, "inicio".toList, "fim".toList, "tipo".toList],
        [[("coluna".toList, " ".toList)],
          [("coluna".toList, "a".toList), ("tamanho".toList, "5".toList),
            ("inicio".toList, "1".toList), ("fim".toList, "x".toList),
            ("tipo".toList, "num".toList)]]⟩).2 (by decide)⟩

/-- C7 counterexample: in the row `coluna=a, tamanho=5, inicio=1, fim=x`,
`inicio` parses (`pyInt? "1" = some 1`) but `fim` does not; the code
leaves BOTH unset (`inicio = none`), not just the failing field as the
claim states. -/
theorem claim_C7_counterexample :
    Except.map (fun L => L.positions.map LayoutPos.inicio)
        (parse_layout_dataframe
          ⟨["coluna".toList, "tamanho".toList, "inicio".toList, "fim".toList, "tipo".toList],
            [[("coluna".toList, "a".toList), ("tamanho".toList, "5".toList),
              ("inicio".toList, "1".toList), ("fim".toList, "x".toList),
              ("tipo".toList, "num".toList)]]⟩) = Except.ok [none] ∧
      pyInt? ("1".toList) = some 1 := by
  refine ⟨?_, by decide⟩
  rfl

/-- C8 counterexample: for the data file `producao_202301.txt` with no
governing layout and no parent-directory competency, the code appends the
detected competency `202301` to the full sanitized stem — which already
ends in it — producing table `producao_202301_202301`, not the claimed
`producao_202301`. -/
theorem claim_C8_counterexample :
    (main_file_plan [] ("producao_202301".toList) ("producao_202301.txt".toList) none
        [("co_procedimento".toList)]).table = ("producao_202301_202301".toList) ∧
      ("producao_202301_202301".toList) ≠ ("producao_202301".toList) := by
  refine ⟨by rfl, by decide⟩

/-- C8 (amended): ungoverned path — stem `producao_202301`, detected
competency `202301` — yields table `producao_202301_202301` (the
competency is appended to the sanitized stem even when the stem already
carries it) with a leading `competencia` column inserted; the same stem
governed by a layout keyed `producao` (from `producao_layout.csv`) yields
table `producao`, columns exactly the layout's, and no `competencia`
column. -/
theorem claim_C8_table_name_resolution :
    main_file_plan [] ("producao_202301".toList) ("producao_202301.txt".toList) none
        [("co_procedimento".toList)] =
      ⟨"producao_202301_202301".toList,
        [("competencia".toList), ("co_procedimento".toList)]⟩ ∧
      layout_base_key ("producao_layout".toList) = ("producao".toList) ∧
      main_file_plan [(("producao".toList), [("co_procedimento".toList), ("co_cid".toList)])]
          ("producao_202301".toList) ("producao_202301.txt".toList) none
          [("co_procedimento".toList), ("co_cid".toList)] =
        ⟨"producao".toList, [("co_procedimento".toList), ("co_cid".toList)]⟩ ∧
      ("competencia".toList) ∉
        (main_file_plan [(("producao".toList), [("co_procedimento".toList), ("co_cid".toList)])]
          ("producao_202301".toList) ("producao_202301.txt".toList) none
          [("co_procedimento".toList), ("co_cid".toList)]).cols := by
  refine ⟨by rfl, by rfl, by rfl, by decide⟩

end Sigtap

